import Mathlib

/-!
Shallow embedding of `src/lib.rs` of the `thread-handle` crate.

The crate defines one type, `ThreadHandle<T>`, holding
  * `interrupted : Weak<AtomicBool>` — a weak reference to the shared
    interruption flag; the matching strong `Arc<AtomicBool>` is moved into
    the worker closure at spawn time and dropped when the closure finishes;
  * `join_handle : RwLock<Option<JoinHandle<T>>>` — the native join handle,
    consumed by the first successful `join`.

The embedding models the whole system state (flag cell, worker progress,
handle slot) as one record, and each public operation as a pure function on
that record, transliterated from the Rust source.  The worker's eventual
outcome is abstracted as a fixed value `pending : Except P T` (`Except.ok v`
for a normal return of `v`, `Except.error p` for a panic with payload `p`):
the claims under study concern the handle mechanics, not how the runnable
computes its result.
-/

instance exceptDecEq {P T : Type} [DecidableEq P] [DecidableEq T] :
    DecidableEq (Except P T) := fun a b =>
  match a, b with
  | Except.ok x, Except.ok y =>
      if h : x = y then isTrue (by rw [h]) else isFalse (by simp [h])
  | Except.ok _, Except.error _ => isFalse (by simp)
  | Except.error _, Except.ok _ => isFalse (by simp)
  | Except.error x, Except.error y =>
      if h : x = y then isTrue (by rw [h]) else isFalse (by simp [h])

/-- `ThreadStatus` from the source: the result type of `ThreadHandle::status`. -/
inductive ThreadStatus where
  | Running
  | Terminated
  deriving DecidableEq, Repr

/-- Spawn-time error: `std::io::Error` from `thread::Builder::spawn`, raised
when the OS cannot create a thread.  Only its occurrence matters here. -/
inductive IoError where
  | osError
  deriving DecidableEq, Repr

/-- The state of one `ThreadHandle<T>` together with the shared cells it
points to.  `P` is the type of panic payloads (`Box<dyn Any>` in Rust).

Field ↔ source mapping:
  * `tname`       — the thread name handed to `thread::Builder::new().name(..)`;
  * `flagValue`   — the value of the shared `AtomicBool` interruption flag;
  * `strongAlive` — whether the worker closure's strong `Arc<AtomicBool>` is
                    still alive; `Weak::upgrade` on `interrupted` returns
                    `Some` exactly when this holds;
  * `finished`    — whether the worker body (`runnable(interrupted_flag)`)
                    has finished executing, normally or by panic;
  * `pending`     — the outcome the worker delivers on termination;
  * `slotPresent` — whether `join_handle : RwLock<Option<JoinHandle<T>>>`
                    still holds `Some` (the native handle not yet taken). -/
structure SysState (T P : Type) where
  tname       : String
  flagValue   : Bool
  strongAlive : Bool
  finished    : Bool
  pending     : Except P T
  slotPresent : Bool
  deriving DecidableEq, Repr

namespace ThreadHandle

variable {T P : Type}

/-- The state produced by a successful `ThreadHandle::spawn(name, runnable)`:
a fresh flag holding `false` (`Arc::new(AtomicBool::new(false))`), the weak
reference derived from it while the worker holds the strong one, the worker
running, and the join-handle slot filled (`RwLock::new(Some(join_handle))`). -/
def initState (name : String) (pending : Except P T) : SysState T P :=
  { tname := name
    flagValue := false
    strongAlive := true
    finished := false
    pending := pending
    slotPresent := true }

/-- `ThreadHandle::spawn`.  `osCanSpawn` models whether the operating system
can create the native thread: `thread::Builder::spawn` returns `Err(io)` and
creates nothing when it cannot, and the `?` operator propagates that error. -/
def spawn (name : String) (pending : Except P T) (osCanSpawn : Bool) :
    Except IoError (SysState T P) :=
  if osCanSpawn then
    Except.ok (initState name pending)
  else
    Except.error IoError.osError

/-- The worker thread's body finishing (normal return or panic): the closure
`move || runnable(interrupted_flag)` ends, dropping its strong
`Arc<AtomicBool>`, and the native thread records the outcome. -/
def workerFinish (s : SysState T P) : SysState T P :=
  { s with finished := true, strongAlive := false }

/-- `ThreadHandle::status`: `self.interrupted.upgrade().is_some()` decides
between `Running` and `Terminated`.  Reads only; never changes the state. -/
def status (s : SysState T P) : ThreadStatus :=
  if s.strongAlive then
    ThreadStatus.Running
  else
    ThreadStatus.Terminated

/-- `ThreadHandle::interrupt`: upgrade the weak reference; on success run
`compare_and_swap(false, true, Relaxed)` on the flag — store `true` when the
current value equals `false`, leave it otherwise — and return `Ok(previous)`;
on failure return `Err(())`. -/
def interrupt (s : SysState T P) : Except Unit Bool × SysState T P :=
  if s.strongAlive then
    let previous := s.flagValue
    let newValue := if s.flagValue = false then true else s.flagValue
    (Except.ok previous, { s with flagValue := newValue })
  else
    (Except.error (), s)

/-- `ThreadHandle::join`: check `self.join_handle.read().unwrap().is_some()`;
if the slot is filled, `take()` the native handle under the write lock and
call `JoinHandle::join` on it, which blocks until the worker thread has
terminated (modelled by applying `workerFinish`) and yields its outcome;
otherwise return `None`.  In this sequential model the read-lock check and
the write-lock `take` collapse into one test of the slot. -/
def join (s : SysState T P) : Option (Except P T) × SysState T P :=
  if s.slotPresent then
    let s1 := workerFinish s
    (some s1.pending, { s1 with slotPresent := false })
  else
    (none, s)

/-- The events that can act on a spawned handle: the three public operations
and the worker's own termination. -/
inductive Op where
  | statusOp
  | interruptOp
  | joinOp
  | finishOp
  deriving DecidableEq, Repr

/-- State transition of one event. -/
def step (s : SysState T P) : Op → SysState T P
  | Op.statusOp => s
  | Op.interruptOp => (interrupt s).snd
  | Op.joinOp => (join s).snd
  | Op.finishOp => workerFinish s

/-- Run a sequence of events from a state. -/
def runOps (s : SysState T P) (ops : List Op) : SysState T P :=
  ops.foldl step s

/-! ### Interleaving model of concurrent `join` calls

`ThreadHandle::join` takes the read lock to test `is_some()`, releases it,
then takes the write lock and `take()`s the slot.  When several threads run
`join` concurrently on one handle, each thread performs two atomic sections:
the read-lock check and the write-lock extraction.  The model below
interleaves these sections arbitrarily.  The worker is assumed terminated,
so the native `JoinHandle::join` of the extracted handle returns its outcome
(abstracted as a value of `α`) immediately; this isolates the extraction
discipline the claim is about. -/

/-- Progress of one thread through the body of `join`:
`start` — before the read-lock `is_some()` check;
`checked sawSome` — after the check, recording what it saw;
`done result` — returned with `result`. -/
inductive JoinThread (α : Type) where
  | start
  | checked (sawSome : Bool)
  | done (result : Option α)
  deriving DecidableEq, Repr

/-- `n` threads concurrently inside `join` on one handle: the slot guarded by
the `RwLock` (holding the outcome the native join will deliver) and each
thread's progress. -/
structure JoinConfig (n : Nat) (α : Type) where
  slot : Option α
  thr : Fin n → JoinThread α

/-- One atomic section of one thread:
`check` — the read-lock `is_some()` test;
`takeHit` — the write-lock `take()` finding the handle, joining it;
`takeMiss` — the write-lock `take()` finding the slot already emptied,
returning `None` from the inner `else`;
`checkedNone` — the outer `else`: the read check saw `None`, return `None`. -/
inductive JoinStep {n : Nat} {α : Type} :
    JoinConfig n α → JoinConfig n α → Prop where
  | check (c : JoinConfig n α) (i : Fin n)
      (h : c.thr i = JoinThread.start) :
      JoinStep c { c with
        thr := Function.update c.thr i (JoinThread.checked c.slot.isSome) }
  | takeHit (c : JoinConfig n α) (i : Fin n) (o : α)
      (h : c.thr i = JoinThread.checked true) (hs : c.slot = some o) :
      JoinStep c { slot := none, thr := Function.update c.thr i (JoinThread.done (some o)) }
  | takeMiss (c : JoinConfig n α) (i : Fin n)
      (h : c.thr i = JoinThread.checked true) (hs : c.slot = none) :
      JoinStep c { c with
        thr := Function.update c.thr i (JoinThread.done none) }
  | checkedNone (c : JoinConfig n α) (i : Fin n)
      (h : c.thr i = JoinThread.checked false) :
      JoinStep c { c with
        thr := Function.update c.thr i (JoinThread.done none) }

/-- Reachability by interleaved atomic sections. -/
def JoinReach {n : Nat} {α : Type} :
    JoinConfig n α → JoinConfig n α → Prop :=
  Relation.ReflTransGen JoinStep

/-- All `n` threads about to run `join`, slot holding the outcome `o`. -/
def joinInit (n : Nat) {α : Type} (o : α) : JoinConfig n α :=
  { slot := some o, thr := fun _ => JoinThread.start }

/-- Invariant of the concurrent-join model: while the slot is full nobody
has returned and nobody has seen it empty; once it is empty exactly one
thread has extracted the outcome `o`. -/
def JoinInv {n : Nat} {α : Type} (o : α) (c : JoinConfig n α) : Prop :=
  (c.slot = some o ∧
    ∀ i, c.thr i = JoinThread.start ∨ c.thr i = JoinThread.checked true) ∨
  (c.slot = none ∧
    ∃ j, c.thr j = JoinThread.done (some o) ∧
      ∀ i x, c.thr i = JoinThread.done (some x) → i = j ∧ x = o)

/-- A concrete two-thread interleaving used to exercise the concurrent-join
theorem: thread 0 checks and extracts, then thread 1 checks and returns
`None`. -/
def jc0 : JoinConfig 2 Nat := joinInit 2 5

def jc1 : JoinConfig 2 Nat :=
  { jc0 with thr := Function.update jc0.thr 0 (JoinThread.checked jc0.slot.isSome) }

def jc2 : JoinConfig 2 Nat :=
  { slot := none, thr := Function.update jc1.thr 0 (JoinThread.done (some 5)) }

def jc3 : JoinConfig 2 Nat :=
  { jc2 with thr := Function.update jc2.thr 1 (JoinThread.checked jc2.slot.isSome) }

def jc4 : JoinConfig 2 Nat :=
  { jc3 with thr := Function.update jc3.thr 1 (JoinThread.done none) }

/-! ### Basic lemmas about single steps and runs -/

theorem pending_step (s : SysState T P) (op : Op) :
    (step s op).pending = s.pending := by
  cases op <;> simp [step, interrupt, join, workerFinish] <;> split <;> simp

theorem pending_runOps (s : SysState T P) (ops : List Op) :
    (runOps s ops).pending = s.pending := by
  induction ops generalizing s with
  | nil => rfl
  | cons op ops ih => rw [runOps, List.foldl_cons, ← runOps, ih, pending_step]

theorem slot_step_of_ne_join (s : SysState T P) (op : Op) (h : op ≠ Op.joinOp) :
    (step s op).slotPresent = s.slotPresent := by
  cases op <;> simp [step, interrupt, workerFinish] at h ⊢ <;> split <;> simp

theorem slot_runOps_of_not_mem (s : SysState T P) (ops : List Op)
    (h : Op.joinOp ∉ ops) :
    (runOps s ops).slotPresent = s.slotPresent := by
  induction ops generalizing s with
  | nil => rfl
  | cons op ops ih =>
      rw [runOps, List.foldl_cons, ← runOps, ih _ (fun hm => h (List.mem_cons_of_mem _ hm)),
        slot_step_of_ne_join _ _ (fun he => h (he ▸ List.mem_cons_self _ _))]

theorem join_snd_slot (s : SysState T P) : (join s).snd.slotPresent = false := by
  simp only [join]
  split <;> simp_all

theorem slot_false_step (s : SysState T P) (op : Op)
    (h : s.slotPresent = false) : (step s op).slotPresent = false := by
  cases op <;> simp [step, interrupt, join, workerFinish, h] <;> split <;> simp_all

theorem slot_false_runOps (s : SysState T P) (ops : List Op)
    (h : s.slotPresent = false) : (runOps s ops).slotPresent = false := by
  induction ops generalizing s with
  | nil => exact h
  | cons op ops ih =>
      rw [runOps, List.foldl_cons, ← runOps]
      exact ih _ (slot_false_step _ _ h)

theorem join_fst (s : SysState T P) :
    (join s).fst = if s.slotPresent then some s.pending else none := by
  simp only [join, workerFinish]
  split <;> rfl

theorem flag_true_step (s : SysState T P) (op : Op)
    (h : s.flagValue = true) : (step s op).flagValue = true := by
  cases op <;> simp [step, interrupt, join, workerFinish, h] <;> split <;> simp_all

theorem flag_true_runOps (s : SysState T P) (ops : List Op)
    (h : s.flagValue = true) : (runOps s ops).flagValue = true := by
  induction ops generalizing s with
  | nil => exact h
  | cons op ops ih =>
      rw [runOps, List.foldl_cons, ← runOps]
      exact ih _ (flag_true_step _ _ h)

theorem flag_step_of_ne_interrupt (s : SysState T P) (op : Op)
    (h : op ≠ Op.interruptOp) : (step s op).flagValue = s.flagValue := by
  cases op <;> simp [step, join, workerFinish] at h ⊢ <;> split <;> simp

theorem flag_runOps_of_not_mem (s : SysState T P) (ops : List Op)
    (h : Op.interruptOp ∉ ops) :
    (runOps s ops).flagValue = s.flagValue := by
  induction ops generalizing s with
  | nil => rfl
  | cons op ops ih =>
      rw [runOps, List.foldl_cons, ← runOps, ih _ (fun hm => h (List.mem_cons_of_mem _ hm)),
        flag_step_of_ne_interrupt _ _ (fun he => h (he ▸ List.mem_cons_self _ _))]

theorem alive_step_inv (s : SysState T P) (op : Op)
    (h : s.strongAlive = !s.finished) : (step s op).strongAlive = !(step s op).finished := by
  cases op <;> simp [step, interrupt, join, workerFinish, h] <;> split <;> simp_all

theorem alive_runOps_inv (s : SysState T P) (ops : List Op)
    (h : s.strongAlive = !s.finished) :
    (runOps s ops).strongAlive = !(runOps s ops).finished := by
  induction ops generalizing s with
  | nil => exact h
  | cons op ops ih =>
      rw [runOps, List.foldl_cons, ← runOps]
      exact ih _ (alive_step_inv _ _ h)

theorem alive_false_step (s : SysState T P) (op : Op)
    (h : s.strongAlive = false) : (step s op).strongAlive = false := by
  cases op <;> simp [step, interrupt, join, workerFinish, h] <;> split <;> simp_all

theorem alive_false_runOps (s : SysState T P) (ops : List Op)
    (h : s.strongAlive = false) : (runOps s ops).strongAlive = false := by
  induction ops generalizing s with
  | nil => exact h
  | cons op ops ih =>
      rw [runOps, List.foldl_cons, ← runOps]
      exact ih _ (alive_false_step _ _ h)

theorem interrupt_fst_of_alive (s : SysState T P) (h : s.strongAlive = true) :
    (interrupt s).fst = Except.ok s.flagValue := by
  simp [interrupt, h]

theorem interrupt_snd_flag_of_alive (s : SysState T P) (h : s.strongAlive = true) :
    (interrupt s).snd.flagValue = true := by
  simp only [interrupt, h, if_true]
  split <;> simp_all

theorem interrupt_fst_of_dead (s : SysState T P) (h : s.strongAlive = false) :
    (interrupt s).fst = Except.error () := by
  simp [interrupt, h]

theorem joinInv_step {n : Nat} {α : Type} {o : α} {c c' : JoinConfig n α}
    (hstep : JoinStep c c') (hinv : JoinInv o c) : JoinInv o c' := by
  cases hstep with
  | check i h =>
      rcases hinv with ⟨hs, hall⟩ | ⟨hs, j, hj, huniq⟩
      · left
        refine ⟨hs, fun i' => ?_⟩
        rcases eq_or_ne i' i with rfl | hne
        · right
          simp [Function.update_same, hs]
        · simp only [Function.update_noteq hne]
          exact hall i'
      · right
        have hij : i ≠ j := by
          intro he
          rw [he, hj] at h
          simp at h
        refine ⟨hs, j, ?_, ?_⟩
        · simp only [Function.update_noteq (Ne.symm hij)]
          exact hj
        · intro i' x hx
          rcases eq_or_ne i' i with rfl | hne
          · simp only [Function.update_same] at hx
            simp at hx
          · simp only [Function.update_noteq hne] at hx
            exact huniq i' x hx
  | takeHit i o2 h hs =>
      rcases hinv with ⟨hsl, hall⟩ | ⟨hsr, _, _, _⟩
      · have ho : o2 = o := by
          rw [hsl] at hs
          exact (Option.some_inj.mp hs.symm)
        right
        refine ⟨rfl, i, ?_, ?_⟩
        · simp only [Function.update_same, ho]
        · intro i' x hx
          rcases eq_or_ne i' i with rfl | hne
          · simp only [Function.update_same] at hx
            simp only [JoinThread.done.injEq, Option.some_inj] at hx
            exact ⟨rfl, hx ▸ ho⟩
          · simp only [Function.update_noteq hne] at hx
            rcases hall i' with h' | h' <;> rw [h'] at hx <;> simp at hx
      · rw [hsr] at hs
        simp at hs
  | takeMiss i h hs =>
      rcases hinv with ⟨hsl, _⟩ | ⟨hsr, j, hj, huniq⟩
      · rw [hsl] at hs
        simp at hs
      · right
        have hij : i ≠ j := by
          intro he
          rw [he, hj] at h
          simp at h
        refine ⟨hsr, j, ?_, ?_⟩
        · simp only [Function.update_noteq (Ne.symm hij)]
          exact hj
        · intro i' x hx
          rcases eq_or_ne i' i with rfl | hne
          · simp only [Function.update_same] at hx
            simp at hx
          · simp only [Function.update_noteq hne] at hx
            exact huniq i' x hx
  | checkedNone i h =>
      rcases hinv with ⟨hsl, hall⟩ | ⟨hsr, j, hj, huniq⟩
      · rcases hall i with h' | h' <;> rw [h'] at h <;> simp at h
      · right
        have hij : i ≠ j := by
          intro he
          rw [he, hj] at h
          simp at h
        refine ⟨hsr, j, ?_, ?_⟩
        · simp only [Function.update_noteq (Ne.symm hij)]
          exact hj
        · intro i' x hx
          rcases eq_or_ne i' i with rfl | hne
          · simp only [Function.update_same] at hx
            simp at hx
          · simp only [Function.update_noteq hne] at hx
            exact huniq i' x hx

theorem joinInv_reach {n : Nat} {α : Type} {o : α} {c c' : JoinConfig n α}
    (h : JoinReach c c') (hinv : JoinInv o c) : JoinInv o c' := by
  induction h with
  | refl => exact hinv
  | tail _ hstep ih => exact joinInv_step hstep ih

end ThreadHandle

section Sanity

open ThreadHandle

example : status (initState "w" (Except.ok (17 : Nat)) (P := Unit)) =
    ThreadStatus.Running := by decide

example : (join (initState "w" (Except.ok (17 : Nat)) (P := Unit))).fst =
    some (Except.ok 17) := by decide

example :
    (join (join (initState "w" (Except.ok (17 : Nat)) (P := Unit))).snd).fst =
      none := by decide

example : (interrupt (initState "w" (Except.ok (17 : Nat)) (P := Unit))).fst =
    Except.ok false := by decide

example :
    (interrupt (interrupt
      (initState "w" (Except.ok (17 : Nat)) (P := Unit))).snd).fst =
    Except.ok true := by decide

example :
    (interrupt (workerFinish
      (initState "w" (Except.ok (17 : Nat)) (P := Unit)))).fst =
    Except.error () := by decide

end Sanity

namespace ThreadHandle

/-- C1: for every handle, the first call to `join()` returns `Some(outcome)` —
the worker's outcome, `Ok(v)` for a normal return of `v` and `Err(payload)`
for an abnormal termination — and every subsequent call to `join()` on the
same handle returns `None`, whatever operations happen in between. -/
theorem join_first_some_then_none {T P : Type} (name : String)
    (pending : Except P T) (ops : List Op) (h : Op.joinOp ∉ ops) :
    (join (runOps (initState name pending) ops)).fst = some pending ∧
    (∀ ops2 : List Op,
      (join (runOps (join (runOps (initState name pending) ops)).snd
        ops2)).fst = none) := by
  have hslot : (runOps (initState name pending) ops).slotPresent = true := by
    rw [slot_runOps_of_not_mem _ _ h]
    rfl
  constructor
  · rw [join_fst, hslot, pending_runOps]
    rfl
  · intro ops2
    rw [join_fst, slot_false_runOps _ _ (join_snd_slot _)]
    rfl

theorem join_first_some_then_none_witness :
    (join (runOps (initState "w" (Except.ok (17 : Nat)) (P := Unit))
      [Op.statusOp, Op.interruptOp])).fst = some (Except.ok 17) ∧
    (join (runOps (join (runOps (initState "w" (Except.ok (17 : Nat)) (P := Unit))
      [Op.statusOp, Op.interruptOp])).snd [Op.finishOp])).fst = none := by
  have h := join_first_some_then_none "w" (Except.ok (17 : Nat)) (P := Unit)
    [Op.statusOp, Op.interruptOp] (by decide)
  exact ⟨h.1, h.2 [Op.finishOp]⟩

/-- C2: `interrupt()` errors exactly when the worker's strong flag handle has
been dropped; while the worker is alive it performs the compare-and-set and
returns `Ok` of the previous flag value, so the first call returns
`Ok(false)`, every later call while alive returns `Ok(true)`, and no call
errors until the worker terminates. -/
theorem interrupt_contract {T P : Type} (name : String) (pending : Except P T)
    (ops : List Op) :
    ((interrupt (runOps (initState name pending) ops)).fst = Except.error () ↔
      (runOps (initState name pending) ops).strongAlive = false) ∧
    ((runOps (initState name pending) ops).strongAlive = true →
      (interrupt (runOps (initState name pending) ops)).fst =
        Except.ok (runOps (initState name pending) ops).flagValue ∧
      (interrupt (runOps (initState name pending) ops)).snd.flagValue = true) ∧
    (Op.interruptOp ∉ ops →
      (runOps (initState name pending) ops).strongAlive = true →
      (interrupt (runOps (initState name pending) ops)).fst = Except.ok false) ∧
    ((runOps (initState name pending) ops).strongAlive = true →
      ∀ ops2 : List Op,
        (runOps (interrupt (runOps (initState name pending) ops)).snd
          ops2).strongAlive = true →
        (interrupt (runOps (interrupt (runOps (initState name pending) ops)).snd
          ops2)).fst = Except.ok true) := by
  refine ⟨?_, ?_, ?_, ?_⟩
  · cases halive : (runOps (initState name pending) ops).strongAlive
    · simp [interrupt_fst_of_dead _ halive]
    · simp [interrupt_fst_of_alive _ halive]
  · intro halive
    exact ⟨interrupt_fst_of_alive _ halive, interrupt_snd_flag_of_alive _ halive⟩
  · intro hni halive
    rw [interrupt_fst_of_alive _ halive, flag_runOps_of_not_mem _ _ hni]
    rfl
  · intro halive ops2 halive2
    rw [interrupt_fst_of_alive _ halive2,
      flag_true_runOps _ _ (interrupt_snd_flag_of_alive _ halive)]

theorem interrupt_contract_witness :
    ((interrupt (runOps (initState "w" (Except.ok (17 : Nat)) (P := Unit))
      [Op.statusOp])).fst = Except.error () ↔
      (runOps (initState "w" (Except.ok (17 : Nat)) (P := Unit))
        [Op.statusOp]).strongAlive = false) ∧
    (interrupt (runOps (initState "w" (Except.ok (17 : Nat)) (P := Unit))
      [Op.statusOp])).fst = Except.ok false ∧
    (interrupt (runOps (interrupt (runOps (initState "w" (Except.ok (17 : Nat))
      (P := Unit)) [Op.statusOp])).snd [Op.statusOp])).fst = Except.ok true := by
  have h := interrupt_contract "w" (Except.ok (17 : Nat)) (P := Unit) [Op.statusOp]
  exact ⟨h.1, h.2.2.1 (by decide) rfl, h.2.2.2 rfl [Op.statusOp] rfl⟩

/-- C3: `status()` returns `Running` exactly when upgrading the weak
interruption-flag reference succeeds (the worker's strong handle is still
alive), and `Terminated` exactly when it fails; it is a total read-only
function of the state. -/
theorem status_contract {T P : Type} (s : SysState T P) :
    (status s = ThreadStatus.Running ↔ s.strongAlive = true) ∧
    (status s = ThreadStatus.Terminated ↔ s.strongAlive = false) := by
  cases h : s.strongAlive <;> simp [status, h]

theorem status_contract_witness :
    status (initState "w" (Except.ok (17 : Nat)) (P := Unit)) =
        ThreadStatus.Running ↔
      (initState "w" (Except.ok (17 : Nat)) (P := Unit)).strongAlive = true :=
  (status_contract _).1

/-- C4: a successful `spawn(name, work)` yields a handle over a fresh
interruption flag holding `false`, with the worker alive and not finished,
the join-handle slot filled, and the worker's eventual outcome recorded;
when the OS cannot create the thread, `spawn` returns the `IoError` and
produces no handle. -/
theorem spawn_contract {T P : Type} (name : String) (pending : Except P T) :
    spawn name pending true = Except.ok (initState name pending) ∧
    (initState name pending (P := P)).flagValue = false ∧
    (initState name pending (P := P)).strongAlive = true ∧
    (initState name pending (P := P)).finished = false ∧
    (initState name pending (P := P)).slotPresent = true ∧
    (initState name pending (P := P)).pending = pending ∧
    (initState name pending (P := P)).tname = name ∧
    spawn name pending (T := T) (P := P) false = Except.error IoError.osError :=
  ⟨rfl, rfl, rfl, rfl, rfl, rfl, rfl, rfl⟩

/-- C6: the interruption flag starts at `false`, is changed by no event other
than `interrupt`'s compare-and-set, which can only set it to `true`, and once
`true` it stays `true` across every sequence of events. -/
theorem flag_monotone {T P : Type} (name : String) (pending : Except P T) :
    (initState name pending (P := P) (T := T)).flagValue = false ∧
    (∀ (s : SysState T P) (op : Op), op ≠ Op.interruptOp →
      (step s op).flagValue = s.flagValue) ∧
    (∀ s : SysState T P, s.flagValue = false → s.strongAlive = true →
      (interrupt s).snd.flagValue = true) ∧
    (∀ (s : SysState T P) (ops : List Op), s.flagValue = true →
      (runOps s ops).flagValue = true) :=
  ⟨rfl, flag_step_of_ne_interrupt,
    fun s _ halive => interrupt_snd_flag_of_alive s halive,
    flag_true_runOps⟩

theorem flag_monotone_witness :
    (step (initState "w" (Except.ok (17 : Nat)) (P := Unit))
      Op.statusOp).flagValue =
      (initState "w" (Except.ok (17 : Nat)) (P := Unit)).flagValue ∧
    (runOps ((interrupt (initState "w" (Except.ok (17 : Nat))
      (P := Unit))).snd) [Op.joinOp, Op.interruptOp]).flagValue = true := by
  have h := flag_monotone "w" (Except.ok (17 : Nat)) (P := Unit)
  exact ⟨h.2.1 _ Op.statusOp (by decide),
    h.2.2.2 _ [Op.joinOp, Op.interruptOp]
      (h.2.2.1 (initState "w" (Except.ok 17)) rfl rfl)⟩

/-- C7: in every state reachable from a spawn, the worker's strong flag
handle is alive exactly while the worker body has not finished — it is
dropped precisely at the body's termination — and once dropped it is never
revived (the handle's weak reference never extends the cell's lifetime). -/
theorem strong_handle_lifetime {T P : Type} (name : String)
    (pending : Except P T) (ops : List Op) :
    ((runOps (initState name pending) ops).strongAlive = true ↔
      (runOps (initState name pending) ops).finished = false) ∧
    (∀ more : List Op, (runOps (initState name pending) ops).strongAlive = false →
      (runOps (runOps (initState name pending) ops) more).strongAlive = false) := by
  have hinv := alive_runOps_inv (initState name pending) ops rfl
  constructor
  · rw [hinv]
    cases (runOps (initState name pending) ops).finished <;> simp
  · intro more h
    exact alive_false_runOps _ _ h

theorem strong_handle_lifetime_witness :
    ((runOps (initState "w" (Except.ok (17 : Nat)) (P := Unit))
      [Op.finishOp]).strongAlive = true ↔
      (runOps (initState "w" (Except.ok (17 : Nat)) (P := Unit))
        [Op.finishOp]).finished = false) ∧
    (runOps (runOps (initState "w" (Except.ok (17 : Nat)) (P := Unit))
      [Op.finishOp]) [Op.statusOp]).strongAlive = false := by
  have h := strong_handle_lifetime "w" (Except.ok (17 : Nat)) (P := Unit)
    [Op.finishOp]
  exact ⟨h.1, h.2 [Op.statusOp] rfl⟩

/-- C9: each of `status`, `interrupt` and `join` always returns one of its
documented result values — `status` one of the two constructors, `interrupt`
either `Ok(previous)` or the explicit `Err`, `join` either `Some(outcome)`
or `None` — and a worker's abnormal-termination payload comes back from
`join` as the value `Some(Err(payload))`, not re-raised in the caller. -/
theorem ops_return_values {T P : Type} (s : SysState T P) :
    (status s = ThreadStatus.Running ∨ status s = ThreadStatus.Terminated) ∧
    ((interrupt s).fst = Except.ok s.flagValue ∨
      (interrupt s).fst = Except.error ()) ∧
    ((join s).fst = some s.pending ∨ (join s).fst = none) ∧
    (∀ p : P, s.pending = Except.error p → s.slotPresent = true →
      (join s).fst = some (Except.error p)) := by
  refine ⟨?_, ?_, ?_, ?_⟩
  · cases h : s.strongAlive
    · exact Or.inr (by simp [status, h])
    · exact Or.inl (by simp [status, h])
  · cases h : s.strongAlive
    · exact Or.inr (interrupt_fst_of_dead _ h)
    · exact Or.inl (interrupt_fst_of_alive _ h)
  · rw [join_fst]
    cases h : s.slotPresent <;> simp
  · intro p hp hslot
    rw [join_fst, hslot, hp]
    rfl

theorem ops_return_values_witness :
    (status (initState "w" (Except.error "boom") (T := Nat)) =
        ThreadStatus.Running ∨
      status (initState "w" (Except.error "boom") (T := Nat)) =
        ThreadStatus.Terminated) ∧
    (join (initState "w" (Except.error "boom") (T := Nat))).fst =
      some (Except.error "boom") := by
  have h := ops_return_values (initState "w" (Except.error "boom") (T := Nat))
  exact ⟨h.1, h.2.2.2 "boom" rfl rfl⟩

/-- C10: `join` consumes only the join-handle slot: the flag's value and the
pending outcome are untouched, the post-state is the pre-state with the slot
emptied and (when it had to wait) the worker's own termination applied, and
once the worker has terminated a `join` changes neither `status()`'s answer
nor `interrupt()`'s result. -/
theorem join_frame {T P : Type} (s : SysState T P) :
    (join s).snd.flagValue = s.flagValue ∧
    (join s).snd.pending = s.pending ∧
    (join s).snd = (if s.slotPresent then
      { workerFinish s with slotPresent := false } else s) ∧
    (s.strongAlive = false →
      status (join s).snd = status s ∧
      (interrupt (join s).snd).fst = (interrupt s).fst) := by
  have hsnd : (join s).snd = (if s.slotPresent then
      { workerFinish s with slotPresent := false } else s) := by
    simp only [join]
    split <;> rfl
  refine ⟨?_, ?_, hsnd, ?_⟩
  · rw [hsnd]
    split <;> rfl
  · rw [hsnd]
    split <;> rfl
  · intro h
    rw [hsnd]
    split
    · exact ⟨by simp [status, workerFinish, h],
        by simp [interrupt, workerFinish, h]⟩
    · exact ⟨rfl, rfl⟩

theorem join_frame_witness :
    (join (workerFinish (initState "w" (Except.ok (17 : Nat))
      (P := Unit)))).snd.flagValue =
      (workerFinish (initState "w" (Except.ok (17 : Nat))
        (P := Unit))).flagValue ∧
    status (join (workerFinish (initState "w" (Except.ok (17 : Nat))
      (P := Unit)))).snd =
      status (workerFinish (initState "w" (Except.ok (17 : Nat))
        (P := Unit))) := by
  have h := join_frame (workerFinish (initState "w" (Except.ok (17 : Nat))
    (P := Unit)))
  exact ⟨h.1, (h.2.2.2 rfl).1⟩

/-- C5: when `n ≥ 1` threads run `join()` concurrently to completion on one
handle whose slot holds the outcome `o`, exactly one thread returns
`Some(o)` and every other thread returns `None`, under every interleaving of
the read-lock checks and write-lock extractions: the exclusively locked
`take()` delivers the outcome neither twice nor not at all. -/
theorem join_concurrent_exactly_one {n : Nat} {α : Type} (o : α) (hn : 0 < n)
    (c : JoinConfig n α) (hreach : JoinReach (joinInit n o) c)
    (hdone : ∀ i, ∃ r, c.thr i = JoinThread.done r) :
    (∃ j, c.thr j = JoinThread.done (some o) ∧
      ∀ i, i ≠ j → c.thr i = JoinThread.done none) ∧
    (∀ i x, c.thr i = JoinThread.done (some x) → x = o) := by
  have hinv0 : JoinInv o (joinInit n o) := Or.inl ⟨rfl, fun _ => Or.inl rfl⟩
  have hinv := joinInv_reach hreach hinv0
  rcases hinv with ⟨_, hall⟩ | ⟨_, j, hj, huniq⟩
  · obtain ⟨r, hr⟩ := hdone ⟨0, hn⟩
    rcases hall ⟨0, hn⟩ with h' | h' <;> rw [hr] at h' <;> simp at h'
  · refine ⟨⟨j, hj, fun i hne => ?_⟩, fun i x hx => (huniq i x hx).2⟩
    obtain ⟨r, hr⟩ := hdone i
    cases r with
    | none => exact hr
    | some x => exact absurd (huniq i x hr).1 hne

theorem join_concurrent_exactly_one_witness :
    (∃ j : Fin 2, jc4.thr j = JoinThread.done (some 5) ∧
      ∀ i, i ≠ j → jc4.thr i = JoinThread.done none) ∧
    (∀ i x, jc4.thr i = JoinThread.done (some x) → x = 5) := by
  have h01 : JoinStep jc0 jc1 := JoinStep.check jc0 0 rfl
  have h12 : JoinStep jc1 jc2 := JoinStep.takeHit jc1 0 5 rfl rfl
  have h23 : JoinStep jc2 jc3 := JoinStep.check jc2 1 rfl
  have h34 : JoinStep jc3 jc4 := JoinStep.checkedNone jc3 1 rfl
  have hreach : JoinReach jc0 jc4 :=
    Relation.ReflTransGen.head h01 (Relation.ReflTransGen.head h12
      (Relation.ReflTransGen.head h23 (Relation.ReflTransGen.single h34)))
  have hdone : ∀ i : Fin 2, ∃ r, jc4.thr i = JoinThread.done r := by
    intro i
    fin_cases i
    · exact ⟨some 5, rfl⟩
    · exact ⟨none, rfl⟩
  exact join_concurrent_exactly_one 5 (by decide) jc4 hreach hdone

/-- C8 counterexample: the interruption flag's value is written by the
`ThreadHandle` itself, not only by the worker's strong handle.  From a
freshly spawned state whose flag is `false`, the handle's `interrupt()` —
which reaches the cell by upgrading the handle's weak reference — leaves the
flag `true`, while no worker event has occurred; so the flag frame stated by
the claim fails at this input. -/
theorem handle_interrupt_mutates_flag :
    (initState "w" (Except.ok (17 : Nat)) (P := Unit)).flagValue = false ∧
    (step (initState "w" (Except.ok (17 : Nat)) (P := Unit))
      Op.interruptOp).flagValue = true ∧
    ¬ ∀ s : SysState Nat Unit,
        (step s Op.interruptOp).flagValue = s.flagValue :=
  ⟨rfl, rfl, fun hall =>
    absurd (hall (initState "w" (Except.ok 17))) (by decide)⟩

/-- C8 amended: `status()` only reads through the weak reference and changes
nothing; `join()` and the worker's own termination never change the flag's
value; when the worker has terminated (the upgrade fails) `interrupt()`
changes nothing either; but while the worker is alive the handle's
`interrupt()` does write the flag — through the temporary strong reference
materialized from its weak handle — setting it to `true`. -/
theorem weak_handle_access {T P : Type} (s : SysState T P) :
    step s Op.statusOp = s ∧
    (step s Op.joinOp).flagValue = s.flagValue ∧
    (step s Op.finishOp).flagValue = s.flagValue ∧
    (s.strongAlive = false → (interrupt s).snd = s) ∧
    (s.strongAlive = true → (interrupt s).snd.flagValue = true) := by
  refine ⟨rfl, ?_, rfl, ?_, ?_⟩
  · simp only [step, join]
    split <;> rfl
  · intro h
    simp [interrupt, h]
  · intro h
    exact interrupt_snd_flag_of_alive s h

theorem weak_handle_access_witness :
    step (initState "w" (Except.ok (17 : Nat)) (P := Unit)) Op.statusOp =
      initState "w" (Except.ok (17 : Nat)) (P := Unit) ∧
    (interrupt (workerFinish (initState "w" (Except.ok (17 : Nat))
      (P := Unit)))).snd =
      workerFinish (initState "w" (Except.ok (17 : Nat)) (P := Unit)) ∧
    (interrupt (initState "w" (Except.ok (17 : Nat))
      (P := Unit))).snd.flagValue = true := by
  have h1 := weak_handle_access (initState "w" (Except.ok (17 : Nat)) (P := Unit))
  have h2 := weak_handle_access (workerFinish (initState "w" (Except.ok (17 : Nat))
    (P := Unit)))
  exact ⟨h1.1, h2.2.2.2.1 rfl, h1.2.2.2.2 rfl⟩

end ThreadHandle
